import Mathlib

/-!
Shallow embedding of the StompBrokerTS message broker.

The embedding follows the TypeScript source:
* the frame wire codec (`parseFrame`, `Frame.toStringOrBuffer`) is modelled at
  the character-list level (`Str`), with JavaScript string operations
  (`split`, `join`, `trim`, `indexOf`, NUL trimming) reproduced as Lean
  functions of the same behaviour;
* the topic matcher (`_checkSubMatchDest`), the heartbeat negotiation inside
  `FrameHandler.CONNECT`, the client-drives heartbeat tick inside
  `heartbeatOn`, connection teardown (`afterConnectionClose`/`heartbeatOff`),
  the middleware chain (`withMiddleware`) and the publish fan-out
  (`onSend`/`_sendToSubscriptions`) are modelled as pure state-passing
  functions over explicit state records.
-/

set_option autoImplicit false

namespace StompBroker

/-- JavaScript strings, modelled as lists of characters. -/
abbrev Str := List Char

/-- Helper used by the split functions: prepend a character to the first
piece of a split result (the result of a split is never empty). -/
def consHead (x : Char) : List Str → List Str
  | [] => [[x]]
  | y :: ys => (x :: y) :: ys

/-- JavaScript `s.split(c)` for a single-character separator `c`. -/
def splitChar (c : Char) : Str → List Str
  | [] => [[]]
  | x :: xs => if x = c then [] :: splitChar c xs else consHead x (splitChar c xs)

/-- JavaScript `s.split('\n\n')`: split on the two-character separator,
scanning left to right without overlap. -/
def splitLF2 : Str → List Str
  | [] => [[]]
  | [x] => [[x]]
  | x :: y :: xs =>
    if x = '\n' ∧ y = '\n' then [] :: splitLF2 xs
    else consHead x (splitLF2 (y :: xs))

/-- Whether a string contains two adjacent line feeds (the header/body
separator of the wire format). -/
def hasLF2 : Str → Bool
  | [] => false
  | [_] => false
  | x :: y :: xs => (x == '\n' && y == '\n') || hasLF2 (y :: xs)

/-- JavaScript `Array.prototype.join(sep)` on an array of strings. -/
def joinSep (sep : Str) : List Str → Str
  | [] => []
  | [l] => l
  | l :: l2 :: rest => l ++ sep ++ joinSep sep (l2 :: rest)

/-- Whitespace recognised by JavaScript `String.prototype.trim`
(restricted to the ASCII whitespace characters used here). -/
def jsWhitespace (c : Char) : Bool :=
  c == ' ' || c == '\t' || c == '\n' || c == '\r' || c == '\x0b' || c == '\x0c'

/-- JavaScript `s.trim()`. -/
def jsTrim (s : Str) : Str :=
  ((s.dropWhile jsWhitespace).reverse.dropWhile jsWhitespace).reverse

/-- JavaScript `s.indexOf(c)`: index of the first occurrence, `-1` if absent. -/
def jsIndexOf (c : Char) : Str → Int
  | [] => -1
  | x :: xs =>
    if x = c then 0
    else
      let r := jsIndexOf c xs
      if r < 0 then -1 else r + 1

/-- From `stomp-utils.ts` `trimNull`: keep everything before the first NUL
byte; if none is present return the string unchanged. -/
def trimNull (a : Str) : Str := a.takeWhile (fun c => c != '\x00')

/-! ## Frame wire codec (`frame.ts` / `stomp-utils.ts`) -/

/-- A parsed STOMP frame as held by the `Frame` class: command, header
object and textual body.  Headers are an insertion-ordered key/value list
with unique keys, matching a JavaScript object with string values (the
`bytes_message` flag, stored by the source as the boolean `true`, is
represented by the value `"true"`). -/
structure FrameM where
  command : Str
  headers : List (Str × Str)
  body : Str
  deriving DecidableEq, Repr

/-- JavaScript object assignment `headers[k] = v` on the key/value list:
overwrite the value of an existing key in place, otherwise append. -/
def objInsertC (k v : Str) : List (Str × Str) → List (Str × Str)
  | [] => [(k, v)]
  | (k1, v1) :: rest => if k1 = k then (k1, v) :: rest else (k1, v1) :: objInsertC k v rest

/-- JavaScript `k in headers` on the key/value list. -/
def objHasKeyC (k : Str) : List (Str × Str) → Bool
  | [] => false
  | (k1, _) :: rest => k1 == k || objHasKeyC k rest

/-- One serialized header line `key:value` (from `Frame.toStringOrBuffer`). -/
def headerLine (h : Str × Str) : Str := h.1 ++ ':' :: h.2

/-- From `frame.ts` `Frame.toStringOrBuffer`, textual-body case: the command,
a line feed, the header lines joined by line feeds, a blank line, the body
and a single NUL byte.  (An absent or empty body contributes nothing.) -/
def toStringOrBuffer (f : FrameM) : Str :=
  f.command ++ '\n' :: (joinSep ['\n'] (f.headers.map headerLine) ++ '\n' :: '\n' :: (f.body ++ ['\x00']))

/-- From `stomp-utils.ts` `parseCommand`: the first line of the raw data. -/
def parseCommand (chunk : Str) : Str :=
  match splitChar '\n' chunk with
  | c :: _ => c
  | [] => []

/-- From `stomp-utils.ts` `parseHeaders`, the treatment of one header line:
split on `:`; with at least one `:` the trimmed first piece is the key and
the trimmed rejoin of the remaining pieces is the value; a line without `:`
is ignored (the `if (header[1])` branch of the source can never fire, since
a one-element split has no second element). -/
def parseHeaderLine (hs : List (Str × Str)) (line : Str) : List (Str × Str) :=
  match splitChar ':' line with
  | [] => hs
  | [_] => hs
  | k :: rest => objInsertC (jsTrim k) (jsTrim (joinSep [':'] rest)) hs

/-- From `stomp-utils.ts` `parseHeaders`: fold the header lines into a
header object. -/
def parseHeaders (raw : Str) : List (Str × Str) :=
  (splitChar '\n' raw).foldl parseHeaderLine []

/-- From `stomp-utils.ts` `parseFrame`: take the first line as the command,
split the remainder on the first blank line into the header block and the
body pieces, parse the headers, join the body pieces with `,` (the source
calls `toString()` on an array slice) and trim at the first NUL; a
`content-length` header additionally sets the `bytes_message` flag on the
header object. -/
def parseFrame (chunk : Str) : FrameM :=
  let command := parseCommand chunk
  let data := chunk.drop (command.length + 1)
  let theRest := splitLF2 data
  let headers0 := parseHeaders (theRest.headD [])
  let bodyStr := trimNull (joinSep [','] (theRest.drop 1))
  let headers :=
    if objHasKeyC ("content-length".data) headers0
    then objInsertC ("bytes_message".data) ("true".data) headers0
    else headers0
  ⟨command, headers, bodyStr⟩

/-! ## Topic matcher (`_checkSubMatchDest`, `tokenizeDestination`) -/

/-- From `stomp-utils.ts` `tokenizeDestination`: drop everything up to and
including the first `/` (nothing when there is none), then split on `.`. -/
def tokenizeDestination (dest : String) : List String :=
  (splitChar '.' (dest.data.drop (jsIndexOf '/' dest.data + 1).toNat)).map (fun t => String.mk t)

/-- From `stomp-server.ts` `_checkSubMatchDest`, as a recursion over the
destination tokens: walk the destination tokens by index; a missing or
mismatching subscription token (other than `*` and `**`) fails the match, a
`**` subscription token succeeds immediately, and consuming every
destination token without a mismatch succeeds. -/
def matchTokens : List String → List String → Bool
  | _, [] => true
  | [], _ :: _ => false
  | p :: ps, d :: ds =>
    if p ≠ d ∧ p ≠ "*" ∧ p ≠ "**" then false
    else if p = "**" then true
    else matchTokens ps ds

/-- From `stomp-server.ts` `_checkSubMatchDest`: tokenize the destination
and run the token walk against the subscription tokens. -/
def checkSubMatchDest (subTokens : List String) (dest : String) : Bool :=
  matchTokens subTokens (tokenizeDestination dest)

/-! ## Heartbeat negotiation and CONNECT handling (`stomp.ts`, `stomp-server.ts`) -/

/-- Reply emitted by `FrameHandler.CONNECT`: a CONNECTED frame carrying the
announced heartbeat pair, or an ERROR frame. -/
inductive ConnResponse
  | connected (heartbeat : Nat × Nat)
  | error
  deriving DecidableEq, Repr

/-- Observable outcome of `FrameHandler.CONNECT`: the heartbeat timer
installed by `heartbeatOn` (`some (serverSide, interval)`, or `none` when
heartbeat is disabled), the announced `heart-beat` pair, and the response
frame. -/
structure ConnectOutcome where
  timer : Option (Bool × Nat)
  announced : Nat × Nat
  response : ConnResponse
  deriving DecidableEq, Repr

/-- From `stomp.ts` `FrameHandler.CONNECT`: given the client-proposed
heartbeat pair `(cx, cy)`, the configured server pair `(sx, sy)` and the
result `accept` of the connect middleware chain, negotiate the heartbeat
direction, install the timer, and answer CONNECTED or ERROR.  The timer is
installed by `heartbeatOn` before the chain result is consulted. -/
def handleConnect (cx cy sx sy : Nat) (accept : Bool) : ConnectOutcome :=
  if cx > 0 ∧ sy > 0 then
    let iv := max cx sy
    { timer := some (false, iv)
      announced := (0, iv)
      response := if accept then .connected (0, iv) else .error }
  else if cy > 0 ∧ sx > 0 then
    let iv := max cy sx
    { timer := some (true, iv)
      announced := (iv, 0)
      response := if accept then .connected (iv, 0) else .error }
  else
    { timer := none
      announced := (0, 0)
      response := if accept then .connected (0, 0) else .error }

/-- From `stomp-server.ts` `heartbeatOn`, client-drives branch: the initial
baseline stored in `socket.heartbeatTime` is the current time plus the
interval. -/
def heartbeatInit (now interval : Int) : Int := now + interval

/-- From `stomp-server.ts` `heartbeatOn`, client-drives branch, one timer
tick at time `now` with stored baseline `heartbeatTime`: if the elapsed
`diff` exceeds `interval + errorMargin` the socket is closed (first
component `true`) and the baseline is untouched; otherwise the baseline is
updated by `socket.heartbeatTime -= diff`. -/
def heartbeatTick (now heartbeatTime interval errorMargin : Int) : Bool × Int :=
  let diff := now - heartbeatTime
  if diff > interval + errorMargin then (true, heartbeatTime)
  else (false, heartbeatTime - diff)

/-! ## Subscriptions, teardown and publish fan-out (`stomp-server.ts`) -/

/-- The `Subscribe` record of `stomp-server.ts`.  The optional socket is
modelled by `hasSocket`: delivery goes to the socket when `true` and to the
in-process event-emitter callback otherwise. -/
structure Subscribe where
  id : String
  sessionId : String
  topic : String
  tokens : List String
  hasSocket : Bool
  deriving DecidableEq, Repr

/-- Per-connection heartbeat timer state: `socket.heartbeatClock`. -/
structure ConnState where
  heartbeatClock : Option Nat
  deriving DecidableEq, Repr

/-- From `stomp-server.ts` `heartbeatOff`: when a timer handle is present
clear the interval and delete the handle, otherwise do nothing. -/
def heartbeatOff (c : ConnState) : ConnState :=
  match c.heartbeatClock with
  | some _ => ⟨none⟩
  | none => c

/-- From `stomp-server.ts` `afterConnectionClose`: remove every
subscription of the closing session from the registry (the source deletes
the matching array slots, observationally a filter), then turn the
heartbeat off. -/
def afterConnectionClose (subs : List Subscribe) (sessionId : String) (c : ConnState) :
    List Subscribe × ConnState :=
  (subs.filter (fun s => s.sessionId != sessionId), heartbeatOff c)

/-! ## Broker-side frames and `onSend` (`stomp-server.ts`) -/

/-- The frame object handled by the broker commands: optional command,
header object, optional textual body.  (Binary `Buffer` bodies and parsed
JSON object bodies are outside this embedding; the claims below evaluate
the code on textual bodies only.) -/
structure MFrame where
  command : Option String
  headers : List (String × String)
  body : Option String
  deriving DecidableEq, Repr

/-- JavaScript object lookup on a string-keyed header list. -/
def hFind (k : String) : List (String × String) → Option String
  | [] => none
  | (k1, v) :: rest => if k1 = k then some v else hFind k rest

/-- JavaScript object assignment on a string-keyed header list. -/
def hInsert (k v : String) : List (String × String) → List (String × String)
  | [] => [(k, v)]
  | (k1, v1) :: rest => if k1 = k then (k1, v) :: rest else (k1, v1) :: hInsert k v rest

/-- UTF-8 size of one character, as counted by `TextEncoder().encode`. -/
def charUtf8Size (c : Char) : Nat :=
  if c.val < 0x80 then 1 else if c.val < 0x800 then 2 else if c.val < 0x10000 then 3 else 4

/-- UTF-8 byte length of a string, as counted by `TextEncoder().encode`. -/
def utf8Length (s : String) : Nat := s.data.foldl (fun n c => n + charUtf8Size c) 0

/-- JSON string escaping of one character, as performed by
`JSON.stringify` on a string value. -/
def escapeJsonChar (c : Char) : String :=
  if c = '"' then "\\\""
  else if c = '\\' then "\\\\"
  else if c = '\n' then "\\n"
  else if c = '\r' then "\\r"
  else if c = '\t' then "\\t"
  else String.mk [c]

/-- JavaScript `JSON.stringify` restricted to string values. -/
def jsonStringify (s : String) : String :=
  "\"" ++ String.join (s.data.map escapeJsonChar) ++ "\""

/-- From `stomp-server.ts` `frameSerializer`: a present non-Buffer body
under `content-type: application/json` is stringified; any other frame
passes through unchanged. -/
def frameSerializer (f : MFrame) : MFrame :=
  if f.body.isSome ∧ hFind "content-type" f.headers = some "application/json" then
    { f with body := f.body.map jsonStringify }
  else f

/-- One delivery performed by `_sendToSubscriptions`: the subscription it
went to and the frame as sent (headers already carrying the `subscription`
header and the MESSAGE command). -/
structure Delivery where
  subId : String
  sessionId : String
  viaSocket : Bool
  frame : MFrame
  deriving DecidableEq, Repr

/-- From `stomp-server.ts` `_sendToSubscriptions`: walk the subscription
registry; skip entries owned by the sending session; for each remaining
entry whose tokens match the destination, set the `subscription` header to
the subscription id, force the command to MESSAGE, and deliver the frame to
the socket or to the in-process callback.  The frame object is shared
across iterations, so header mutations persist into later deliveries. -/
def sendToSubscriptions (senderSession : String) (dest : String) :
    List Subscribe → MFrame → MFrame × List Delivery
  | [], frame => (frame, [])
  | sub :: rest, frame =>
    if sub.sessionId = senderSession then
      sendToSubscriptions senderSession dest rest frame
    else if checkSubMatchDest sub.tokens dest then
      let frame1 : MFrame :=
        { frame with
          headers := hInsert "subscription" sub.id frame.headers
          command := some "MESSAGE" }
      let out := sendToSubscriptions senderSession dest rest frame1
      (out.1, ⟨sub.id, sub.sessionId, sub.hasSocket, frame1⟩ :: out.2)
    else
      sendToSubscriptions senderSession dest rest frame

/-- The local `headers` object built inside `stomp-server.ts` `onSend`: the
defaults (a fresh `message-id` and `content-type: text/plain`) with the
frame headers copied over them.  The source computes this object and then
never uses it again, so it reaches no delivered frame. -/
def onSendMergedHeaders (msgId : String) (frameHeaders : List (String × String)) :
    List (String × String) :=
  frameHeaders.foldl (fun hs kv => hInsert kv.1 kv.2 hs)
    [("message-id", msgId), ("content-type", "text/plain")]

/-- From `stomp-server.ts` `onSend` (terminal send handler): serialize the
body, inject `content-length` (the UTF-8 byte length of the body) into the
frame headers when a body is present, build the merged default header
object (which the source then discards, see `onSendMergedHeaders`), and fan
out to the subscriptions.  `msgId` stands for the freshly generated
`stompUtils.genId('msg')`. -/
def onSend (msgId : String) (senderSession : String) (subs : List Subscribe)
    (dest : String) (frame0 : MFrame) : MFrame × List Delivery :=
  let frame := frameSerializer frame0
  let frame :=
    match frame.body with
    | some b => { frame with headers := hInsert "content-length" (toString (utf8Length b)) frame.headers }
    | none => frame
  let merged := onSendMergedHeaders msgId frame.headers
  let _ := merged
  sendToSubscriptions senderSession dest subs frame

/-! ## Middleware chain (`withMiddleware`) -/

/-- One middleware handler as observed by the chain executor of
`stomp-server.ts` `withMiddleware`: whether it invokes its continuation
`callNext`, and the value it returns, as a function of the continuation
result when it called it (`some r`) or of nothing (`none`) when it did
not. -/
structure Interceptor (α : Type) where
  callsNext : Bool
  ret : Option α → α

/-- From `stomp-server.ts` `withMiddleware`: run the handlers in
registration order in continuation-passing style; when the handler list is
exhausted the terminal handler provides the value `final`; the value of the
chain is the value returned by the first handler (or `final` when there are
no handlers). -/
def runChain {α : Type} (final : α) : List (Interceptor α) → α
  | [] => final
  | h :: hs => if h.callsNext then h.ret (some (runChain final hs)) else h.ret none

/-- Execution trace of the chain: the positions (0-based registration
order) of the handlers that start running, with position `n` (one past the
last handler) standing for the terminal handler. -/
def chainTrace {α : Type} : List (Interceptor α) → Nat → List Nat
  | [], n => [n]
  | h :: hs, n => if h.callsNext then n :: chainTrace hs (n + 1) else [n]

/-! ## Concrete instances used by counterexamples and witnesses -/

/-- A middleware handler that invokes its continuation and then returns the
negation of the continuation result (`(socket, args, next) => !next()`). -/
def negateInterceptor : Interceptor Bool := ⟨true, fun r => !(r.getD true)⟩

/-- A middleware handler that invokes its continuation and returns its
value unchanged (`(socket, args, next) => next()`). -/
def idInterceptor : Interceptor Bool := ⟨true, fun r => r.getD true⟩

/-- A one-entry subscription registry used to instantiate theorems. -/
def sampleSubs : List Subscribe := [⟨"s1", "A", "/t.x", ["t", "x"], true⟩]

/-- The registry of the §8 scenario: client B (session `B`) subscribed to
`/topic/foo.*` under id `s1`. -/
def c3Subs : List Subscribe :=
  [⟨"s1", "B", "/topic/foo.*", tokenizeDestination "/topic/foo.*", true⟩]

/-- The SEND frame of the §8 scenario: body `hello` to `/topic/foo.bar`. -/
def c3Frame : MFrame := ⟨some "SEND", [("destination", "/topic/foo.bar")], some "hello"⟩

/-! # Theorems -/

/-- C1: at CONNECT time, if `cx > 0` and `sy > 0` the server adopts
client-drives mode (timer with `serverSide = false`) with effective
interval `max cx sy` and announces `(0, interval)` in the CONNECTED frame;
otherwise if `cy > 0` and `sx > 0` it adopts server-drives mode with
interval `max cy sx` announcing `(interval, 0)`; otherwise heartbeat is
disabled and `(0, 0)` is announced; at most one direction of the announced
pair is ever nonzero; and for client proposal `(5000, 5000)` with server
configuration `(0, 10000)` the server adopts client-drives mode with
interval `10000`, announcing `(0, 10000)`. -/
theorem connect_heartbeat_negotiation (cx cy sx sy : Nat) :
    (cx > 0 ∧ sy > 0 →
      handleConnect cx cy sx sy true =
        ⟨some (false, max cx sy), (0, max cx sy), .connected (0, max cx sy)⟩) ∧
    (¬(cx > 0 ∧ sy > 0) → cy > 0 ∧ sx > 0 →
      handleConnect cx cy sx sy true =
        ⟨some (true, max cy sx), (max cy sx, 0), .connected (max cy sx, 0)⟩) ∧
    (¬(cx > 0 ∧ sy > 0) → ¬(cy > 0 ∧ sx > 0) →
      handleConnect cx cy sx sy true = ⟨none, (0, 0), .connected (0, 0)⟩) ∧
    ((handleConnect cx cy sx sy true).announced.1 = 0 ∨
      (handleConnect cx cy sx sy true).announced.2 = 0) ∧
    handleConnect 5000 5000 0 10000 true =
      ⟨some (false, 10000), (0, 10000), .connected (0, 10000)⟩ := by
  refine ⟨?_, ?_, ?_, ?_, by decide⟩
  · intro h
    simp only [handleConnect]
    rw [if_pos h]
    simp
  · intro h1 h2
    simp only [handleConnect]
    rw [if_neg h1, if_pos h2]
    simp
  · intro h1 h2
    simp only [handleConnect]
    rw [if_neg h1, if_neg h2]
    simp
  · by_cases h1 : cx > 0 ∧ sy > 0
    · left
      simp only [handleConnect]
      rw [if_pos h1]
    · by_cases h2 : cy > 0 ∧ sx > 0
      · right
        simp only [handleConnect]
        rw [if_neg h1, if_pos h2]
      · left
        simp only [handleConnect]
        rw [if_neg h1, if_neg h2]

/-- Witness for C1 at the concrete negotiation of the spec scenario. -/
theorem connect_heartbeat_negotiation_witness :
    handleConnect 5000 5000 0 10000 true =
      ⟨some (false, max 5000 10000), (0, max 5000 10000),
        ConnResponse.connected (0, max 5000 10000)⟩ :=
  (connect_heartbeat_negotiation 5000 5000 0 10000).1 (by decide)

/-- C10: during CONNECT handling the heartbeat timer is installed before
the connect middleware chain result is consulted, so a rejected CONNECT
(ERROR response) still leaves the negotiated client-drives timer in place,
and the installed timer does not depend on the chain result at all. -/
theorem reject_leaves_timer (cx cy sx sy : Nat) (h : cx > 0 ∧ sy > 0) :
    (handleConnect cx cy sx sy false).response = .error ∧
    (handleConnect cx cy sx sy false).timer = some (false, max cx sy) ∧
    ∀ accept : Bool,
      (handleConnect cx cy sx sy accept).timer = (handleConnect cx cy sx sy true).timer := by
  refine ⟨?_, ?_, ?_⟩
  · simp only [handleConnect]
    rw [if_pos h]
    simp
  · simp only [handleConnect]
    rw [if_pos h]
  · intro accept
    simp only [handleConnect]
    rw [if_pos h, if_pos h]

/-- Witness for C10 at the concrete negotiation of the spec scenario. -/
theorem reject_leaves_timer_witness :
    (handleConnect 5000 5000 0 10000 false).response = ConnResponse.error ∧
    (handleConnect 5000 5000 0 10000 false).timer = some (false, max 5000 10000) ∧
    (handleConnect 5000 5000 0 10000 false).timer = (handleConnect 5000 5000 0 10000 true).timer := by
  have h := reject_leaves_timer 5000 5000 0 10000 (by decide)
  exact ⟨h.1, h.2.1, h.2.2 false⟩

/-- C4 (counterexample): on a client-drives tick with baseline `100`, now
`150`, interval `1000` and error margin `1000` the connection stays open,
but the new baseline is `50 = 100 - 50`, not the baseline advanced by the
elapsed amount (`100 + 50`) and not the current time. -/
theorem heartbeat_tick_not_advanced :
    heartbeatTick 150 100 1000 1000 = (false, 50) ∧
    (50 : Int) ≠ 100 + (150 - 100) ∧ (50 : Int) ≠ 150 := by decide

/-- C4 (amended): on a client-drives tick, the connection is closed
exactly when the elapsed time `now - b` exceeds `interval + errorMargin`;
otherwise it stays open and the stored baseline is decreased by exactly
the elapsed amount — in particular it is not reset to the current time
(whenever some time has elapsed). -/
theorem heartbeat_tick_baseline (now b iv m : Int) :
    ((heartbeatTick now b iv m).1 = true ↔ now - b > iv + m) ∧
    (now - b ≤ iv + m →
      (heartbeatTick now b iv m).1 = false ∧
      (heartbeatTick now b iv m).2 = b - (now - b) ∧
      (b ≠ now → (heartbeatTick now b iv m).2 ≠ now)) := by
  by_cases h : now - b > iv + m
  · simp only [heartbeatTick]
    rw [if_pos h]
    exact ⟨iff_of_true rfl h, fun hle => absurd h (not_lt.mpr hle)⟩
  · simp only [heartbeatTick]
    rw [if_neg h]
    refine ⟨iff_of_false (by simp) h, fun _ => ⟨rfl, rfl, fun hne => ?_⟩⟩
    intro heq
    exact hne (by omega)

/-- Witness for C4 at the tick of the counterexample. -/
theorem heartbeat_tick_baseline_witness :
    ((heartbeatTick 150 100 1000 1000).1 = true ↔ (150 : Int) - 100 > 1000 + 1000) ∧
    (heartbeatTick 150 100 1000 1000).1 = false ∧
    (heartbeatTick 150 100 1000 1000).2 = 100 - ((150 : Int) - 100) ∧
    (heartbeatTick 150 100 1000 1000).2 ≠ 150 := by
  have h := heartbeat_tick_baseline 150 100 1000 1000
  have h2 := h.2 (by decide)
  exact ⟨h.1, h2.1, h2.2.1, h2.2.2 (by decide)⟩

/-- C5: the topic matcher satisfies: pattern `a.*.c` matches destination
`[a,b,c]` while `a.*.d` (for a fourth distinct non-wildcard token `d`)
does not; `a.**` matches `[a]`, `[a,b]` and `[a,b,c]`; a pattern with
fewer tokens than the destination and no `**` token never matches; a `**`
pattern token succeeds immediately whatever destination tokens remain; and
consuming all destination tokens without mismatch succeeds. -/
theorem topic_match_totality :
    (∀ a b c : String, matchTokens [a, "*", c] [a, b, c] = true) ∧
    (∀ a b c d : String, a ≠ "**" → d ≠ c → d ≠ "*" → d ≠ "**" →
      matchTokens [a, "*", d] [a, b, c] = false) ∧
    (∀ a b c : String, matchTokens [a, "**"] [a] = true ∧
      matchTokens [a, "**"] [a, b] = true ∧ matchTokens [a, "**"] [a, b, c] = true) ∧
    (∀ ps ds : List String, ps.length < ds.length → "**" ∉ ps →
      matchTokens ps ds = false) ∧
    (∀ ps ds : List String, ∀ d : String, matchTokens ("**" :: ps) (d :: ds) = true) ∧
    (∀ ps : List String, matchTokens ps [] = true) := by
  have hstar : ∀ ps ds : List String, ∀ d : String, matchTokens ("**" :: ps) (d :: ds) = true := by
    intro ps ds d
    show (if ("**" : String) ≠ d ∧ ("**" : String) ≠ "*" ∧ ("**" : String) ≠ "**" then false
      else if ("**" : String) = "**" then true else matchTokens ps ds) = true
    rw [if_neg (fun h => h.2.2 rfl), if_pos rfl]
  have hnil : ∀ ps : List String, matchTokens ps [] = true := by
    intro ps
    cases ps <;> rfl
  refine ⟨?_, ?_, ?_, ?_, hstar, hnil⟩
  · intro a b c
    show (if a ≠ a ∧ a ≠ "*" ∧ a ≠ "**" then false
      else if a = "**" then true else matchTokens ["*", c] [b, c]) = true
    rw [if_neg (fun h => h.1 rfl)]
    by_cases ha : a = "**"
    · rw [if_pos ha]
    · rw [if_neg ha]
      show (if ("*" : String) ≠ b ∧ ("*" : String) ≠ "*" ∧ ("*" : String) ≠ "**" then false
        else if ("*" : String) = "**" then true else matchTokens [c] [c]) = true
      rw [if_neg (fun h => h.2.1 rfl), if_neg (by decide)]
      show (if c ≠ c ∧ c ≠ "*" ∧ c ≠ "**" then false
        else if c = "**" then true else matchTokens ([] : List String) []) = true
      rw [if_neg (fun h => h.1 rfl)]
      by_cases hc : c = "**"
      · rw [if_pos hc]
      · rw [if_neg hc]
        rfl
  · intro a b c d ha hdc hd1 hd2
    show (if a ≠ a ∧ a ≠ "*" ∧ a ≠ "**" then false
      else if a = "**" then true else matchTokens ["*", d] [b, c]) = false
    rw [if_neg (fun h => h.1 rfl), if_neg ha]
    show (if ("*" : String) ≠ b ∧ ("*" : String) ≠ "*" ∧ ("*" : String) ≠ "**" then false
      else if ("*" : String) = "**" then true else matchTokens [d] [c]) = false
    rw [if_neg (fun h => h.2.1 rfl), if_neg (by decide)]
    show (if d ≠ c ∧ d ≠ "*" ∧ d ≠ "**" then false
      else if d = "**" then true else matchTokens ([] : List String) []) = false
    rw [if_pos ⟨hdc, hd1, hd2⟩]
  · intro a b c
    have step : ∀ rest : List String, matchTokens [a, "**"] (a :: rest) = true := by
      intro rest
      show (if a ≠ a ∧ a ≠ "*" ∧ a ≠ "**" then false
        else if a = "**" then true else matchTokens ["**"] rest) = true
      rw [if_neg (fun h => h.1 rfl)]
      by_cases ha : a = "**"
      · rw [if_pos ha]
      · rw [if_neg ha]
        cases rest with
        | nil => rfl
        | cons r rest2 => exact hstar [] rest2 r
    exact ⟨step [], step [b], step [b, c]⟩
  · intro ps ds hlen hw
    induction ps generalizing ds with
    | nil =>
      cases ds with
      | nil => simp at hlen
      | cons d ds2 => rfl
    | cons p ps2 ih =>
      cases ds with
      | nil => simp at hlen
      | cons d ds2 =>
        have hp : p ≠ "**" := fun h => hw (by simp [h])
        show (if p ≠ d ∧ p ≠ "*" ∧ p ≠ "**" then false
          else if p = "**" then true else matchTokens ps2 ds2) = false
        by_cases h1 : p ≠ d ∧ p ≠ "*" ∧ p ≠ "**"
        · rw [if_pos h1]
        · rw [if_neg h1, if_neg hp]
          exact ih ds2 (by simpa using Nat.lt_of_succ_lt_succ (by simpa using hlen))
            (fun h => hw (List.mem_cons_of_mem _ h))

/-- Witness for C5: instances of the quantified conjuncts at concrete
tokens. -/
theorem topic_match_totality_witness :
    matchTokens ["a", "*", "d"] ["a", "b", "c"] = false ∧
    matchTokens ["x"] ["x", "y"] = false := by
  have h := topic_match_totality
  exact ⟨h.2.1 "a" "b" "c" "d" (by decide) (by decide) (by decide) (by decide),
    h.2.2.2.1 ["x"] ["x", "y"] (by decide) (by decide)⟩

/-- C9 (implicit): a pattern with strictly more tokens than the
destination matches whenever every destination-indexed pattern token
equals the destination token or `*`, because the walk iterates only over
destination tokens; in particular `foo.bar.baz` matches `[foo, bar]`. -/
theorem long_pattern_matches :
    (∀ ps ds : List String, ds.length < ps.length →
      (∀ i, i < ds.length → ps.getD i "" = ds.getD i "" ∨ ps.getD i "" = "*") →
      matchTokens ps ds = true) ∧
    matchTokens ["foo", "bar", "baz"] ["foo", "bar"] = true := by
  constructor
  · intro ps ds
    induction ds generalizing ps with
    | nil =>
      intro _ _
      cases ps <;> rfl
    | cons d ds2 ih =>
      intro hlen hidx
      cases ps with
      | nil => simp at hlen
      | cons p ps2 =>
        have h0 : p = d ∨ p = "*" := by simpa using hidx 0 (by simp)
        show (if p ≠ d ∧ p ≠ "*" ∧ p ≠ "**" then false
          else if p = "**" then true else matchTokens ps2 ds2) = true
        have hrec : matchTokens ps2 ds2 = true := by
          refine ih ps2 (by simpa using Nat.lt_of_succ_lt_succ (by simpa using hlen)) ?_
          intro i hi
          simpa using hidx (i + 1) (by simpa using Nat.succ_lt_succ hi)
        rcases h0 with h0 | h0
        · rw [if_neg (fun h => h.1 h0)]
          by_cases hp : p = "**"
          · rw [if_pos hp]
          · rw [if_neg hp]
            exact hrec
        · rw [if_neg (fun h => h.2.1 h0), if_neg (by rw [h0]; decide)]
          exact hrec
  · decide

/-- Witness for C9 at the concrete pattern `foo.bar.baz` and destination
`[foo, bar]`. -/
theorem long_pattern_matches_witness :
    matchTokens ["foo", "bar", "baz"] ["foo", "bar"] = true :=
  long_pattern_matches.1 ["foo", "bar", "baz"] ["foo", "bar"] (by decide) (by decide)

/-- C8: connection teardown is idempotent: running
`afterConnectionClose` twice gives the same end state as running it once;
afterwards no subscription of the session remains and no heartbeat timer
is live; and `heartbeatOff` on a connection with no active timer is a
no-op. -/
theorem teardown_idempotent (subs : List Subscribe) (sid : String) (c : ConnState) :
    afterConnectionClose (afterConnectionClose subs sid c).1 sid (afterConnectionClose subs sid c).2 =
      afterConnectionClose subs sid c ∧
    (∀ s ∈ (afterConnectionClose subs sid c).1, s.sessionId ≠ sid) ∧
    (afterConnectionClose subs sid c).2.heartbeatClock = none ∧
    (c.heartbeatClock = none → heartbeatOff c = c) := by
  obtain ⟨clock⟩ := c
  refine ⟨?_, ?_, ?_, ?_⟩
  · simp only [afterConnectionClose, Prod.mk.injEq]
    constructor
    · rw [List.filter_filter]
      simp
    · cases clock <;> rfl
  · intro s hs
    simp only [afterConnectionClose, List.mem_filter] at hs
    simpa using hs.2
  · simp only [afterConnectionClose]
    cases clock <;> rfl
  · intro h
    simp only at h
    rw [h]
    rfl

/-- Witness for C8 on a concrete registry and a connection without an
active timer. -/
theorem teardown_idempotent_witness :
    afterConnectionClose (afterConnectionClose sampleSubs "A" ⟨none⟩).1 "A"
        (afterConnectionClose sampleSubs "A" ⟨none⟩).2 =
      afterConnectionClose sampleSubs "A" ⟨none⟩ ∧
    (afterConnectionClose sampleSubs "A" ⟨none⟩).2.heartbeatClock = none ∧
    heartbeatOff ⟨none⟩ = (⟨none⟩ : ConnState) := by
  have h := teardown_idempotent sampleSubs "A" ⟨none⟩
  exact ⟨h.1, h.2.2.1, h.2.2.2 rfl⟩

/-- C6: the publish fan-out never delivers to a subscription whose session
is the sender session: self-exclusion is unconditional. -/
theorem publish_self_exclusion (sender dest : String) (subs : List Subscribe) (f : MFrame) :
    ((sendToSubscriptions sender dest subs f).2.all fun d => d.sessionId != sender) = true := by
  induction subs generalizing f with
  | nil => rfl
  | cons sub rest ih =>
    by_cases h1 : sub.sessionId = sender
    · simpa [sendToSubscriptions, h1] using ih f
    · by_cases h2 : checkSubMatchDest sub.tokens dest
      · simp only [sendToSubscriptions, if_neg h1, if_pos h2, List.all_cons]
        rw [ih]
        simpa using h1
      · simpa [sendToSubscriptions, h1, h2] using ih f

/-- C7 (counterexample): a middleware handler that calls its continuation
but returns the negation of its value makes the chain return `false` while
the terminal handler returns `true`. -/
theorem chain_result_cex :
    negateInterceptor.callsNext = true ∧
    runChain true [negateInterceptor] = false := ⟨rfl, rfl⟩

/-- C7 (amended): when every middleware handler calls its continuation,
the handlers start in strict registration order followed by the terminal
handler; if in addition every handler returns the value produced by its
continuation call, the value of the chain equals the terminal handler
result.  (A handler may call its continuation and still return a different
value, which then becomes the chain result — see the counterexample.) -/
theorem chain_order_and_result {α : Type} (hs : List (Interceptor α)) (final : α)
    (hcall : ∀ h ∈ hs, h.callsNext = true) :
    chainTrace hs 0 = List.range (hs.length + 1) ∧
    ((∀ h ∈ hs, ∀ r, h.ret (some r) = r) → runChain final hs = final) := by
  constructor
  · have htr : ∀ (l : List (Interceptor α)) (k : Nat), (∀ h ∈ l, h.callsNext = true) →
        chainTrace l k = List.range' k (l.length + 1) := by
      intro l
      induction l with
      | nil =>
        intro k _
        rfl
      | cons h l2 ih =>
        intro k hc
        have hh : h.callsNext = true := hc h (by simp)
        show (if h.callsNext then k :: chainTrace l2 (k + 1) else [k]) = _
        rw [if_pos hh, ih (k + 1) (fun g hg => hc g (List.mem_cons_of_mem _ hg))]
        rfl
    rw [htr hs 0 hcall, List.range_eq_range']
  · intro hret
    induction hs with
    | nil => rfl
    | cons h hs2 ih =>
      have hh : h.callsNext = true := hcall h (by simp)
      show (if h.callsNext then h.ret (some (runChain final hs2)) else h.ret none) = final
      rw [if_pos hh,
        ih (fun g hg => hcall g (List.mem_cons_of_mem _ hg))
          (fun g hg => hret g (List.mem_cons_of_mem _ hg)),
        hret h (by simp) final]

/-- Witness for C7 on a one-handler chain that propagates the continuation
value. -/
theorem chain_order_and_result_witness :
    chainTrace [idInterceptor] 0 = List.range 2 ∧
    runChain false [idInterceptor] = false := by
  have h := chain_order_and_result [idInterceptor] false
    (by intro g hg; rw [List.mem_singleton] at hg; rw [hg]; rfl)
  refine ⟨h.1, h.2 ?_⟩
  intro g hg r
  rw [List.mem_singleton] at hg
  rw [hg]
  rfl

/-- C3 (code evaluation at the failing input): in the §8 scenario — sender
session `A`, subscriber `s1` of session `B` on `/topic/foo.*`, SEND with
body `hello` to `/topic/foo.bar` — exactly one MESSAGE frame is delivered,
carrying `subscription: s1`, the preserved `destination`, and
`content-length: 5` (the UTF-8 byte length of the body), but no
`message-id` header at all: the merged default header object containing
the fresh `message-id` is computed by `onSend` and then discarded. -/
theorem send_drops_message_id :
    (onSend "msg1" "A" c3Subs "/topic/foo.bar" c3Frame).2 =
      [⟨"s1", "B", true,
        ⟨some "MESSAGE",
          [("destination", "/topic/foo.bar"), ("content-length", "5"), ("subscription", "s1")],
          some "hello"⟩⟩] ∧
    hFind "message-id"
      [("destination", "/topic/foo.bar"), ("content-length", "5"), ("subscription", "s1")] = none ∧
    utf8Length "hello" = 5 ∧
    onSendMergedHeaders "msg1" [("destination", "/topic/foo.bar"), ("content-length", "5")] =
      [("message-id", "msg1"), ("content-type", "text/plain"),
        ("destination", "/topic/foo.bar"), ("content-length", "5")] := by
  refine ⟨by decide, by decide, by decide, by decide⟩

/-! ## Lemmas about the split and join functions, towards the round-trip -/

theorem consHead_cons (x : Char) (y : Str) (ys : List Str) :
    consHead x (y :: ys) = (x :: y) :: ys := rfl

theorem splitChar_ne_nil (c : Char) (s : Str) : splitChar c s ≠ [] := by
  induction s with
  | nil => simp [splitChar]
  | cons x xs ih =>
    by_cases h : x = c
    · simp [splitChar, h]
    · simp only [splitChar, if_neg h]
      obtain ⟨y, ys, hy⟩ := List.exists_cons_of_ne_nil ih
      rw [hy, consHead_cons]
      simp

theorem splitChar_append (c : Char) (a b : Str) (h : c ∉ a) :
    splitChar c (a ++ c :: b) = a :: splitChar c b := by
  induction a with
  | nil => simp [splitChar]
  | cons x a2 ih =>
    have hx : x ≠ c := fun hxc => h (by simp [hxc])
    have ha2 : c ∉ a2 := fun hm => h (List.mem_cons_of_mem _ hm)
    show splitChar c (x :: (a2 ++ c :: b)) = (x :: a2) :: splitChar c b
    simp only [splitChar, if_neg hx, ih ha2, consHead_cons]

theorem splitChar_of_not_mem (c : Char) (a : Str) (h : c ∉ a) : splitChar c a = [a] := by
  induction a with
  | nil => rfl
  | cons x a2 ih =>
    have hx : x ≠ c := fun hxc => h (by simp [hxc])
    have ha2 : c ∉ a2 := fun hm => h (List.mem_cons_of_mem _ hm)
    simp only [splitChar, if_neg hx, ih ha2, consHead_cons]

theorem joinSep_splitChar (c : Char) (s : Str) : joinSep [c] (splitChar c s) = s := by
  induction s with
  | nil => rfl
  | cons x xs ih =>
    obtain ⟨y, ys, hy⟩ := List.exists_cons_of_ne_nil (splitChar_ne_nil c xs)
    by_cases h : x = c
    · subst h
      have h1 : splitChar x (x :: xs) = [] :: splitChar x xs := by simp [splitChar]
      rw [h1, hy]
      show [] ++ [x] ++ joinSep [x] (y :: ys) = x :: xs
      rw [← hy, ih]
      rfl
    · have h1 : splitChar c (x :: xs) = consHead x (splitChar c xs) := by
        simp [splitChar, h]
      rw [h1, hy, consHead_cons]
      cases ys with
      | nil =>
        show x :: y = x :: xs
        rw [hy] at ih
        exact congrArg (fun l => x :: l) ih
      | cons z zs =>
        show (x :: y) ++ [c] ++ joinSep [c] (z :: zs) = x :: xs
        rw [hy] at ih
        rw [← ih]
        rfl

theorem hasLF2_cons_of (x : Char) (l : Str) (h : hasLF2 (x :: l) = false) :
    hasLF2 l = false := by
  cases l with
  | nil => rfl
  | cons y ys =>
    simp only [hasLF2, Bool.or_eq_false_iff] at h
    exact h.2

theorem hasLF2_head (x y : Char) (l : Str) (h : hasLF2 (x :: y :: l) = false) :
    ¬(x = '\n' ∧ y = '\n') := by
  rintro ⟨hx, hy⟩
  subst hx
  subst hy
  simp [hasLF2] at h

theorem hasLF2_of_not_mem (l : Str) (h : '\n' ∉ l) : hasLF2 l = false := by
  induction l with
  | nil => rfl
  | cons x xs ih =>
    cases xs with
    | nil => rfl
    | cons y ys =>
      have hx : x ≠ '\n' := fun hh => h (by simp [hh])
      have h2 : '\n' ∉ y :: ys := fun hm => h (List.mem_cons_of_mem _ hm)
      simp only [hasLF2, Bool.or_eq_false_iff]
      exact ⟨by simp [hx], ih h2⟩

theorem hasLF2_append_false (a b : Str) (ha : hasLF2 a = false) (hb : hasLF2 b = false)
    (hmid : a.getLast? ≠ some '\n' ∨ b.head? ≠ some '\n') :
    hasLF2 (a ++ b) = false := by
  induction a with
  | nil => simpa using hb
  | cons x a2 ih =>
    cases a2 with
    | nil =>
      cases b with
      | nil => rfl
      | cons y ys =>
        show hasLF2 (x :: y :: ys) = false
        simp only [hasLF2, Bool.or_eq_false_iff]
        refine ⟨?_, hb⟩
        rcases hmid with hm | hm
        · have hx : x ≠ '\n' := by simpa using hm
          simp [hx]
        · have hy : y ≠ '\n' := by simpa using hm
          simp [hy]
    | cons z a3 =>
      have h1 : ¬(x = '\n' ∧ z = '\n') := hasLF2_head x z a3 ha
      have h2 : hasLF2 (z :: a3) = false := hasLF2_cons_of x (z :: a3) ha
      have hmid2 : (z :: a3).getLast? ≠ some '\n' ∨ b.head? ≠ some '\n' := by
        rcases hmid with hm | hm
        · left
          rwa [List.getLast?_cons_cons] at hm
        · right
          exact hm
      have hrest := ih h2 hmid2
      show hasLF2 (x :: z :: (a3 ++ b)) = false
      simp only [hasLF2, Bool.or_eq_false_iff]
      refine ⟨?_, hrest⟩
      by_cases hx : x = '\n'
      · have hz : z ≠ '\n' := fun hzz => h1 ⟨hx, hzz⟩
        simp [hz]
      · simp [hx]

theorem splitLF2_of_no (b : Str) (hb : hasLF2 b = false) : splitLF2 b = [b] := by
  induction b with
  | nil => rfl
  | cons x rest ih =>
    cases rest with
    | nil => rfl
    | cons y rest2 =>
      have hxy := hasLF2_head x y rest2 hb
      have h2 : hasLF2 (y :: rest2) = false := hasLF2_cons_of _ _ hb
      show (if x = '\n' ∧ y = '\n' then [] :: splitLF2 rest2
        else consHead x (splitLF2 (y :: rest2))) = [x :: y :: rest2]
      rw [if_neg hxy, ih h2, consHead_cons]

theorem splitLF2_append (a b : Str) (h : hasLF2 (a ++ ['\n']) = false) :
    splitLF2 (a ++ '\n' :: '\n' :: b) = a :: splitLF2 b := by
  induction a with
  | nil =>
    show (if '\n' = '\n' ∧ '\n' = '\n' then [] :: splitLF2 b
      else consHead '\n' (splitLF2 ('\n' :: b))) = [] :: splitLF2 b
    rw [if_pos ⟨rfl, rfl⟩]
  | cons x a2 ih =>
    cases a2 with
    | nil =>
      have hx : x ≠ '\n' := by
        intro hxx
        subst hxx
        simp [hasLF2] at h
      show (if x = '\n' ∧ '\n' = '\n' then [] :: splitLF2 ('\n' :: b)
        else consHead x (splitLF2 ('\n' :: '\n' :: b))) = [x] :: splitLF2 b
      rw [if_neg (fun hh => hx hh.1)]
      rw [show splitLF2 ('\n' :: '\n' :: b) = [] :: splitLF2 b from by
        show (if '\n' = '\n' ∧ '\n' = '\n' then [] :: splitLF2 b
          else consHead '\n' (splitLF2 ('\n' :: b))) = [] :: splitLF2 b
        rw [if_pos ⟨rfl, rfl⟩]]
      rfl
    | cons z a3 =>
      have h1 : ¬(x = '\n' ∧ z = '\n') := hasLF2_head x z (a3 ++ ['\n']) h
      have h2 : hasLF2 ((z :: a3) ++ ['\n']) = false := hasLF2_cons_of x ((z :: a3) ++ ['\n']) h
      show (if x = '\n' ∧ z = '\n' then [] :: splitLF2 (a3 ++ '\n' :: '\n' :: b)
        else consHead x (splitLF2 ((z :: a3) ++ '\n' :: '\n' :: b))) =
        (x :: z :: a3) :: splitLF2 b
      rw [if_neg h1, ih h2, consHead_cons]

theorem trimNull_append (b : Str) (h : '\x00' ∉ b) : trimNull (b ++ ['\x00']) = b := by
  induction b with
  | nil => rfl
  | cons x xs ih =>
    have hx : (x != '\x00') = true := by
      simp only [bne_iff_ne, ne_eq]
      intro hh
      exact h (by simp [hh])
    have h2 : '\x00' ∉ xs := fun hm => h (List.mem_cons_of_mem _ hm)
    show List.takeWhile (fun c => c != '\x00') (x :: (xs ++ ['\x00'])) = x :: xs
    rw [@List.takeWhile_cons_of_pos Char (fun c => c != '\x00') x (xs ++ ['\x00']) hx]
    exact congrArg (fun l => x :: l) (ih h2)

theorem objHasKeyC_eq_false (k : Str) (hs : List (Str × Str)) (h : ∀ p ∈ hs, p.1 ≠ k) :
    objHasKeyC k hs = false := by
  induction hs with
  | nil => rfl
  | cons p rest ih =>
    obtain ⟨k1, v1⟩ := p
    simp only [objHasKeyC, Bool.or_eq_false_iff]
    refine ⟨?_, ih (fun q hq => h q (List.mem_cons_of_mem _ hq))⟩
    simpa using h (k1, v1) (by simp)

theorem objHasKeyC_append (k : Str) (xs ys : List (Str × Str)) :
    objHasKeyC k (xs ++ ys) = (objHasKeyC k xs || objHasKeyC k ys) := by
  induction xs with
  | nil => simp [objHasKeyC]
  | cons p rest ih =>
    obtain ⟨k1, v1⟩ := p
    show (k1 == k || objHasKeyC k (rest ++ ys)) = ((k1 == k || objHasKeyC k rest) || objHasKeyC k ys)
    rw [ih, Bool.or_assoc]

theorem objInsertC_append (k v : Str) (hs : List (Str × Str)) (h : objHasKeyC k hs = false) :
    objInsertC k v hs = hs ++ [(k, v)] := by
  induction hs with
  | nil => rfl
  | cons p rest ih =>
    obtain ⟨k1, v1⟩ := p
    simp only [objHasKeyC, Bool.or_eq_false_iff] at h
    have hk : ¬(k1 = k) := by simpa using h.1
    simp only [objInsertC, if_neg hk, List.cons_append]
    rw [ih h.2]

theorem parseHeaderLine_line (acc : List (Str × Str)) (k v : Str)
    (hk : ':' ∉ k) (htk : jsTrim k = k) (htv : jsTrim v = v) :
    parseHeaderLine acc (headerLine (k, v)) = objInsertC k v acc := by
  obtain ⟨r, rs, hr⟩ := List.exists_cons_of_ne_nil (splitChar_ne_nil ':' v)
  have hsplit : splitChar ':' (headerLine (k, v)) = k :: r :: rs := by
    show splitChar ':' (k ++ ':' :: v) = k :: r :: rs
    rw [splitChar_append ':' k v hk, hr]
  show (match splitChar ':' (headerLine (k, v)) with
    | [] => acc
    | [_] => acc
    | k2 :: rest => objInsertC (jsTrim k2) (jsTrim (joinSep [':'] rest)) acc) = objInsertC k v acc
  rw [hsplit]
  show objInsertC (jsTrim k) (jsTrim (joinSep [':'] (r :: rs))) acc = objInsertC k v acc
  rw [← hr, joinSep_splitChar, htk, htv]

theorem foldl_parseHeaderLine (hs : List (Str × Str)) (acc : List (Str × Str))
    (hcond : ∀ p ∈ hs, ':' ∉ p.1 ∧ jsTrim p.1 = p.1 ∧ jsTrim p.2 = p.2)
    (hnodup : (hs.map Prod.fst).Nodup)
    (hdis : ∀ p ∈ hs, objHasKeyC p.1 acc = false) :
    (hs.map headerLine).foldl parseHeaderLine acc = acc ++ hs := by
  induction hs generalizing acc with
  | nil => simp
  | cons p rest ih =>
    obtain ⟨k, v⟩ := p
    simp only [List.map_cons] at hnodup
    have hc := hcond (k, v) (by simp)
    simp only [List.map_cons, List.foldl_cons]
    rw [parseHeaderLine_line acc k v hc.1 hc.2.1 hc.2.2]
    rw [objInsertC_append k v acc (hdis (k, v) (by simp))]
    rw [ih (acc ++ [(k, v)]) (fun q hq => hcond q (List.mem_cons_of_mem _ hq))
      (List.nodup_cons.mp hnodup).2 ?_]
    · simp
    · intro q hq
      rw [objHasKeyC_append]
      have h1 : objHasKeyC q.1 acc = false := hdis q (List.mem_cons_of_mem _ hq)
      have h2 : objHasKeyC q.1 [(k, v)] = false := by
        have hkq : ¬(k = q.1) := by
          intro he
          have hmem : q.1 ∈ rest.map Prod.fst := List.mem_map_of_mem _ hq
          rw [← he] at hmem
          exact (List.nodup_cons.mp hnodup).1 hmem
        simp [objHasKeyC, hkq]
      rw [h1, h2]
      rfl

theorem splitChar_joinSep (c : Char) (lines : List Str) (hne : lines ≠ [])
    (h : ∀ l ∈ lines, c ∉ l) :
    splitChar c (joinSep [c] lines) = lines := by
  induction lines with
  | nil => exact absurd rfl hne
  | cons l rest ih =>
    cases rest with
    | nil => exact splitChar_of_not_mem c l (h l (by simp))
    | cons l2 rest2 =>
      have hj : joinSep [c] (l :: l2 :: rest2) = l ++ c :: joinSep [c] (l2 :: rest2) := by
        show l ++ [c] ++ joinSep [c] (l2 :: rest2) = _
        rw [List.append_assoc]
        rfl
      rw [hj, splitChar_append c l _ (h l (by simp))]
      rw [ih (by simp) (fun q hq => h q (List.mem_cons_of_mem _ hq))]

theorem hasLF2_join_aux (rest : List Str) (l : Str)
    (h : ∀ q ∈ l :: rest, '\n' ∉ q ∧ q ≠ []) :
    hasLF2 (joinSep ['\n'] (l :: rest) ++ ['\n']) = false ∧
    hasLF2 ('\n' :: (joinSep ['\n'] (l :: rest) ++ ['\n'])) = false := by
  induction rest generalizing l with
  | nil =>
    have hl := h l (by simp)
    have h1 : hasLF2 (l ++ ['\n']) = false := by
      refine hasLF2_append_false l ['\n'] (hasLF2_of_not_mem l hl.1) rfl (Or.inl ?_)
      intro hc
      exact hl.1 (List.mem_of_mem_getLast? (Option.mem_def.mpr hc))
    refine ⟨h1, ?_⟩
    cases hll : l with
    | nil => exact absurd hll hl.2
    | cons c cs =>
      subst hll
      have hc : c ≠ '\n' := fun hh => hl.1 (by simp [hh])
      show hasLF2 ('\n' :: c :: (cs ++ ['\n'])) = false
      simp only [hasLF2, Bool.or_eq_false_iff]
      exact ⟨by simp [hc], by simpa using h1⟩
  | cons l2 rest3 ih =>
    have hl := h l (by simp)
    have hrest : ∀ q ∈ l2 :: rest3, '\n' ∉ q ∧ q ≠ [] :=
      fun q hq => h q (List.mem_cons_of_mem _ hq)
    have hih := ih l2 hrest
    have hshape : joinSep ['\n'] (l :: l2 :: rest3) ++ ['\n'] =
        l ++ '\n' :: (joinSep ['\n'] (l2 :: rest3) ++ ['\n']) := by
      show (l ++ ['\n'] ++ joinSep ['\n'] (l2 :: rest3)) ++ ['\n'] = _
      rw [List.append_assoc, List.append_assoc]
      rfl
    have h1 : hasLF2 (joinSep ['\n'] (l :: l2 :: rest3) ++ ['\n']) = false := by
      rw [hshape]
      refine hasLF2_append_false l ('\n' :: (joinSep ['\n'] (l2 :: rest3) ++ ['\n']))
        (hasLF2_of_not_mem l hl.1) hih.2 (Or.inl ?_)
      intro hc
      exact hl.1 (List.mem_of_mem_getLast? (Option.mem_def.mpr hc))
    refine ⟨h1, ?_⟩
    cases hll : l with
    | nil => exact absurd hll hl.2
    | cons c cs =>
      subst hll
      have hc : c ≠ '\n' := fun hh => hl.1 (by simp [hh])
      rw [hshape] at h1 ⊢
      show hasLF2 ('\n' :: c :: (cs ++ '\n' :: (joinSep ['\n'] (l2 :: rest3) ++ ['\n']))) = false
      simp only [hasLF2, Bool.or_eq_false_iff]
      exact ⟨by simp [hc], by simpa using h1⟩

/-- C2 (counterexample): for the frame `SEND` with the single header
`content-length: 5` and body `hello` — whose header key contains neither
`\n` nor `:` — parsing the serialized form does not preserve the header
set: the parser injects an extra `bytes_message` header. -/
theorem frame_roundtrip_cex :
    (parseFrame (toStringOrBuffer
        ⟨"SEND".data, [("content-length".data, "5".data)], "hello".data⟩)).headers ≠
      [("content-length".data, "5".data)] ∧
    objHasKeyC ("bytes_message".data)
      (parseFrame (toStringOrBuffer
        ⟨"SEND".data, [("content-length".data, "5".data)], "hello".data⟩)).headers = true ∧
    objHasKeyC ("bytes_message".data) [("content-length".data, "5".data)] = false := by
  refine ⟨by decide, by decide, by decide⟩

/-- C2 (amended): for every frame whose command contains no `\n`, whose
header keys contain no `\n` or `:` and are pairwise distinct and distinct
from `content-length`, whose header keys and values are unchanged by
trimming and whose values contain no `\n`, and whose textual body contains
no NUL byte and no `\n\n` substring, parsing the serialized form yields a
frame with the same command, the same header key/value pairs and the same
body.  (As stated the claim fails: a `content-length` header makes the
parser inject an extra `bytes_message` header — see the counterexample —
and bodies containing `\n\n` or NUL, untrimmed header parts, or header
values containing `\n` are also corrupted.) -/
theorem frame_roundtrip_amended (f : FrameM)
    (hcmd : '\n' ∉ f.command)
    (hhdr : ∀ p ∈ f.headers,
      '\n' ∉ p.1 ∧ ':' ∉ p.1 ∧ jsTrim p.1 = p.1 ∧ '\n' ∉ p.2 ∧ jsTrim p.2 = p.2)
    (hnodup : (f.headers.map Prod.fst).Nodup)
    (hcl : ∀ p ∈ f.headers, p.1 ≠ "content-length".data)
    (hbody1 : hasLF2 f.body = false)
    (hbody0 : '\x00' ∉ f.body) :
    parseFrame (toStringOrBuffer f) = f := by
  obtain ⟨cmd, hdrs, body⟩ := f
  simp only at hcmd hhdr hnodup hcl hbody1 hbody0
  have hlinesFact : ∀ l ∈ hdrs.map headerLine, '\n' ∉ l ∧ l ≠ [] := by
    intro l hl
    obtain ⟨p, hp, rfl⟩ := List.mem_map.mp hl
    have hh := hhdr p hp
    refine ⟨?_, by simp [headerLine]⟩
    show '\n' ∉ p.1 ++ ':' :: p.2
    intro hm
    rcases List.mem_append.mp hm with hm | hm
    · exact hh.1 hm
    · rcases List.mem_cons.mp hm with hm | hm
      · exact absurd hm (by decide)
      · exact hh.2.2.2.1 hm
  have hser : toStringOrBuffer ⟨cmd, hdrs, body⟩ =
      cmd ++ '\n' :: (joinSep ['\n'] (hdrs.map headerLine) ++
        '\n' :: '\n' :: (body ++ ['\x00'])) := rfl
  have hcmdEq : parseCommand (toStringOrBuffer ⟨cmd, hdrs, body⟩) = cmd := by
    rw [hser]
    show (match splitChar '\n' (cmd ++ '\n' :: (joinSep ['\n'] (hdrs.map headerLine) ++
      '\n' :: '\n' :: (body ++ ['\x00']))) with
      | c :: _ => c
      | [] => []) = cmd
    rw [splitChar_append '\n' cmd _ hcmd]
  have hdata : (toStringOrBuffer ⟨cmd, hdrs, body⟩).drop (cmd.length + 1) =
      joinSep ['\n'] (hdrs.map headerLine) ++ '\n' :: '\n' :: (body ++ ['\x00']) := by
    rw [hser]
    have h1 : cmd ++ '\n' :: (joinSep ['\n'] (hdrs.map headerLine) ++
        '\n' :: '\n' :: (body ++ ['\x00'])) =
        (cmd ++ ['\n']) ++ (joinSep ['\n'] (hdrs.map headerLine) ++
          '\n' :: '\n' :: (body ++ ['\x00'])) := by
      rw [List.append_assoc]
      rfl
    rw [h1, List.drop_left' (by simp)]
  have hLF2HB : hasLF2 (joinSep ['\n'] (hdrs.map headerLine) ++ ['\n']) = false := by
    cases hh : hdrs.map headerLine with
    | nil => rfl
    | cons l rest =>
      exact (hasLF2_join_aux rest l (fun q hq => hlinesFact q (by rw [hh]; exact hq))).1
  have hBN : hasLF2 (body ++ ['\x00']) = false :=
    hasLF2_append_false body ['\x00'] hbody1 rfl (Or.inr (by decide))
  have hsplit : splitLF2 (joinSep ['\n'] (hdrs.map headerLine) ++
      '\n' :: '\n' :: (body ++ ['\x00'])) =
      [joinSep ['\n'] (hdrs.map headerLine), body ++ ['\x00']] := by
    rw [splitLF2_append _ _ hLF2HB, splitLF2_of_no _ hBN]
  have hheaders : parseHeaders (joinSep ['\n'] (hdrs.map headerLine)) = hdrs := by
    cases hdrs with
    | nil => rfl
    | cons p hs2 =>
      show (splitChar '\n' (joinSep ['\n'] ((p :: hs2).map headerLine))).foldl
        parseHeaderLine [] = p :: hs2
      rw [splitChar_joinSep '\n' _ (by simp) (fun l hl => (hlinesFact l hl).1)]
      exact foldl_parseHeaderLine (p :: hs2) []
        (fun q hq => ⟨(hhdr q hq).2.1, (hhdr q hq).2.2.1, (hhdr q hq).2.2.2.2⟩)
        hnodup (fun q _ => rfl)
  have hnoCl : objHasKeyC ("content-length".data) hdrs = false :=
    objHasKeyC_eq_false _ _ hcl
  have hbody : trimNull (joinSep [','] [body ++ ['\x00']]) = body := by
    show trimNull (body ++ ['\x00']) = body
    exact trimNull_append body hbody0
  show parseFrame (toStringOrBuffer ⟨cmd, hdrs, body⟩) = ⟨cmd, hdrs, body⟩
  simp only [parseFrame]
  rw [hcmdEq, hdata, hsplit]
  simp only [List.headD_cons, List.drop_succ_cons, List.drop_zero]
  rw [hheaders, hnoCl, hbody]
  simp

/-- Witness for C2 on a concrete frame satisfying every hypothesis. -/
theorem frame_roundtrip_amended_witness :
    parseFrame (toStringOrBuffer
      ⟨"SEND".data, [("destination".data, "/a.b".data)], "hi".data⟩) =
      ⟨"SEND".data, [("destination".data, "/a.b".data)], "hi".data⟩ :=
  frame_roundtrip_amended ⟨"SEND".data, [("destination".data, "/a.b".data)], "hi".data⟩
    (by decide) (by decide) (by decide) (by decide) (by decide) (by decide)

end StompBroker
